import Mathlib

/-!
# Verification of the emergent-boids analyzer core

A shallow embedding of the ingestion/stability-analytics layer of the
emergent-boids analyzer (`src/analyzer/src/ml/stability_metrics.py`,
`jsonl_loader.py`, `multirate_loader.py`, and
`src/analyzer/generate_full_report.py`), together with theorems settling
the frozen claims about it.

Modelling conventions:
* A pandas `DataFrame` is a column list plus a row list; each row has an
  integer `tick` and an association list of cells.  A key missing from a
  row's association list models a `NaN` cell, so a cell read is
  `Option ℚ` (`none` = NaN).  pandas reductions (`mean`, `std`, `min`)
  skip NaN, which the embedding mirrors by dropping `none` cells first.
* Exact rationals stand for Python floats; `Real.sqrt` and `Real.log`
  stand for `math.sqrt`/`np.log`.  The float values `NaN` and `+inf`
  are represented explicitly by the `PFloat` type where a function can
  produce them.
* `json.loads` of a snapshot line is external; a parsed snapshot is
  modelled as its flattened scalar content (`Snapshot`).
-/

namespace Boids

/-- One row of a canonical table: the `tick` column plus the remaining
cells as an association list.  A key absent from `vals` models a NaN
cell of a column that exists in the frame. -/
structure Row where
  tick : ℤ
  vals : List (String × ℚ)
deriving DecidableEq, Repr

/-- A pandas DataFrame: column names plus rows. -/
structure DataFrame where
  cols : List String
  rows : List Row
deriving DecidableEq, Repr

/-- The cells of column `c`, in row order; `none` models NaN. -/
def colCells (df : DataFrame) (c : String) : List (Option ℚ) :=
  df.rows.map fun r => r.vals.lookup c

/-- pandas `dropna` on a series: keep the non-null values in order. -/
def dropna (cells : List (Option ℚ)) : List ℚ :=
  cells.filterMap id

/-- Arithmetic mean of a list of rationals (`series.mean()` on the
non-null values; callers guard the empty case, where pandas gives NaN). -/
def qmean (xs : List ℚ) : ℚ :=
  xs.sum / xs.length

/-- Sample standard deviation with `ddof = 1` (`series.std()`), on the
non-null values; callers guard the `length ≤ 1` cases, where pandas
gives NaN. -/
noncomputable def sampleStd (xs : List ℚ) : ℝ :=
  Real.sqrt ((xs.map fun x => ((x : ℝ) - (qmean xs : ℝ)) ^ 2).sum / ((xs.length : ℝ) - 1))

/-- A Python float outcome that can be NaN or +infinity. -/
inductive PFloat where
  | nan : PFloat
  | inf : PFloat
  | val : ℝ → PFloat

/-- `calculate_coefficient_of_variation(series)` from
`stability_metrics.py`: `mean = series.mean(); if mean == 0: return inf;
return series.std() / mean`, applied to a series of possibly-NaN cells.
pandas skips NaN in `mean`/`std`; the mean of no values is NaN (and
`NaN == 0` is false), and `std` of a single value is NaN with
`ddof = 1`, so those two cases yield NaN. -/
noncomputable def coefficientOfVariation (cells : List (Option ℚ)) : PFloat :=
  let xs := dropna cells
  if xs.length = 0 then .nan
  else if qmean xs = 0 then .inf
  else if xs.length = 1 then .nan
  else .val (sampleStd xs / (qmean xs : ℝ))

/-! ## Equilibrium detection (`detect_equilibrium`) -/

/-- The window `df.iloc[i-window:i]` of rows scanned at index `i`
(`i ≥ window`, so the Python slice never clips on the left). -/
def windowSlice (df : DataFrame) (i w : ℕ) : List Row :=
  (df.rows.take i).drop (i - w)

/-- The failure condition
`np.isnan(cv) or np.isinf(cv) or cv > cv_threshold` on one species'
coefficient of variation inside `detect_equilibrium`. -/
def cvUnstable (c : PFloat) (t : ℝ) : Prop :=
  match c with
  | .nan => True
  | .inf => True
  | .val x => x > t

/-- The `all_stable` flag of one iteration of `detect_equilibrium`'s
outer loop: every listed species whose population column exists in the
frame passes the CV test over the preceding window. -/
def allStableAt (df : DataFrame) (species : List String) (w : ℕ) (t : ℝ) (i : ℕ) : Prop :=
  ∀ sp ∈ species, (sp ++ "_population") ∈ df.cols →
    ¬ cvUnstable
        (coefficientOfVariation ((windowSlice df i w).map fun r => r.vals.lookup (sp ++ "_population")))
        t

/-- `detect_equilibrium(df, species, window, cv_threshold)` from
`stability_metrics.py`: scan `i` over `range(window, len(df))`, return
`int(df.iloc[i]['tick'])` for the first index whose window is stable for
every species, else `None`. -/
noncomputable def detectEquilibrium (df : DataFrame) (species : List String)
    (w : ℕ) (t : ℝ) : Option ℤ :=
  ((List.range' w (df.rows.length - w)).find? fun i =>
      @decide (allStableAt df species w t i) (Classical.propDecidable _)).map
    fun i => (df.rows.getD i ⟨0, []⟩).tick

/-- Ordering on `detect_equilibrium` results in which the `None`
sentinel counts as later than every tick: `noneLater a b` says outcome
`a` is at or before outcome `b`. -/
def noneLater : Option ℤ → Option ℤ → Prop
  | _, none => True
  | some x, some y => x ≤ y
  | none, some _ => False

lemma cvUnstable_mono {c : PFloat} {t1 t2 : ℝ} (h : t1 ≤ t2)
    (hc : cvUnstable c t2) : cvUnstable c t1 := by
  cases c with
  | nan => trivial
  | inf => trivial
  | val x => exact lt_of_le_of_lt h hc

lemma allStableAt_mono {df : DataFrame} {species : List String} {w : ℕ} {t1 t2 : ℝ}
    (h : t1 ≤ t2) {i : ℕ} (hs : allStableAt df species w t1 i) :
    allStableAt df species w t2 i := by
  intro sp hsp hcol hun
  exact hs sp hsp hcol (cvUnstable_mono h hun)

/-- On a `range'` block, a `find?` with a weaker predicate succeeds no
later than a `find?` with a stronger one. -/
lemma find?_range'_mono {p q : ℕ → Bool} (hpq : ∀ a, p a = true → q a = true) :
    ∀ (s n : ℕ) {a : ℕ}, (List.range' s n).find? p = some a →
      ∃ b, (List.range' s n).find? q = some b ∧ b ≤ a := by
  intro s n
  induction n generalizing s with
  | zero => intro a ha; simp [List.range'] at ha
  | succ n ih =>
    intro a ha
    rw [List.range'_succ] at ha ⊢
    by_cases hq : q s = true
    · refine ⟨s, by simp [List.find?_cons, hq], ?_⟩
      by_cases hp : p s = true
      · simp [List.find?_cons, hp] at ha
        omega
      · rw [List.find?_cons_of_neg _ (by simp [hp])] at ha
        have := List.mem_of_find?_eq_some ha
        rw [List.mem_range'_1] at this
        omega
    · have hp : ¬ p s = true := fun hps => hq (hpq s hps)
      rw [List.find?_cons_of_neg _ (by simp [hp])] at ha
      rw [List.find?_cons_of_neg _ (by simp [hq])]
      exact ih (s + 1) ha

lemma sorted_ticks_getD_mono {df : DataFrame}
    (hsorted : List.Sorted (· ≤ ·) (df.rows.map Row.tick)) {i j : ℕ}
    (hij : i ≤ j) (hj : j < df.rows.length) :
    (df.rows.getD i ⟨0, []⟩).tick ≤ (df.rows.getD j ⟨0, []⟩).tick := by
  rcases eq_or_lt_of_le hij with rfl | hlt
  · exact le_refl _
  · have hmem := List.pairwise_iff_get.mp hsorted
      ⟨i, by simp; omega⟩ ⟨j, by simp [hj]⟩ (by exact hlt)
    rw [List.getD_eq_getElem _ _ (by omega), List.getD_eq_getElem _ _ hj]
    simpa [List.get_eq_getElem] using hmem

/-- C1: `detect_equilibrium` is monotonic in the CV threshold.  For a
table whose tick column is sorted ascending (the `TimeSeriesTable`
invariant of the data model), and thresholds `t1 ≤ t2` with the same
window, the outcome at `t2` is at or before the outcome at `t1`, where
`None` counts as later than every tick; in particular a found
equilibrium never becomes `None` when the threshold is raised. -/
theorem detectEquilibrium_threshold_mono (df : DataFrame) (species : List String)
    (w : ℕ) (t1 t2 : ℝ) (ht : t1 ≤ t2)
    (hsorted : List.Sorted (· ≤ ·) (df.rows.map Row.tick)) :
    noneLater (detectEquilibrium df species w t2) (detectEquilibrium df species w t1) := by
  classical
  unfold detectEquilibrium
  cases hf1 : (List.range' w (df.rows.length - w)).find?
      (fun i => decide (allStableAt df species w t1 i)) with
  | none => simp [noneLater]
  | some i1 =>
    obtain ⟨i2, hf2, hle⟩ := find?_range'_mono
      (p := fun i => decide (allStableAt df species w t1 i))
      (q := fun i => decide (allStableAt df species w t2 i))
      (fun a ha => by
        simp only [decide_eq_true_eq] at ha ⊢
        exact allStableAt_mono ht ha) w (df.rows.length - w) hf1
    have hi1 : i1 < df.rows.length := by
      have := List.mem_of_find?_eq_some hf1
      rw [List.mem_range'_1] at this
      omega
    rw [hf2]
    simpa [noneLater] using sorted_ticks_getD_mono hsorted hle hi1

/-- Witness for C1 at a concrete sorted table. -/
theorem detectEquilibrium_threshold_mono_witness :
    noneLater
      (detectEquilibrium ⟨["x_population"], [⟨3, [("x_population", 2)]⟩, ⟨7, []⟩]⟩ ["x"] 1 (2 : ℝ))
      (detectEquilibrium ⟨["x_population"], [⟨3, [("x_population", 2)]⟩, ⟨7, []⟩]⟩ ["x"] 1 (1 : ℝ)) :=
  detectEquilibrium_threshold_mono _ ["x"] 1 1 2 (by norm_num) (by decide)

/-- C9: when the table has more than `window` rows and no listed species
has a population column, every species is skipped, so the scan accepts
its very first index and returns the tick of the row at index `window`
rather than the `None` sentinel. -/
theorem detectEquilibrium_absent_columns (df : DataFrame) (species : List String)
    (w : ℕ) (t : ℝ) (hw : w < df.rows.length)
    (habs : ∀ sp ∈ species, (sp ++ "_population") ∉ df.cols) :
    detectEquilibrium df species w t = some (df.rows.getD w ⟨0, []⟩).tick := by
  classical
  unfold detectEquilibrium
  have hrange : List.range' w (df.rows.length - w) =
      w :: List.range' (w + 1) (df.rows.length - w - 1) := by
    rw [← List.range'_succ]
    congr 1
    omega
  rw [hrange, List.find?_cons_of_pos _ (by
    simp only [decide_eq_true_eq]
    intro sp hsp hcol
    exact absurd hcol (habs sp hsp))]
  rfl

/-- Witness for C9 at a concrete two-row table with no matching column. -/
theorem detectEquilibrium_absent_columns_witness :
    detectEquilibrium ⟨["other"], [⟨3, []⟩, ⟨7, []⟩]⟩ ["x"] 1 ((1 : ℝ)/10) =
      some (DataFrame.rows ⟨["other"], [⟨3, []⟩, ⟨7, []⟩]⟩ |>.getD 1 ⟨0, []⟩).tick :=
  detectEquilibrium_absent_columns _ ["x"] 1 _ (by decide) (by decide)

/-! ## Rolling CV (`calculate_population_stability`) and extinction risk -/

/-- The rolling series
`df[pop_col].rolling(window, min_periods=1).apply(calculate_coefficient_of_variation)`
from `calculate_population_stability`: at index `i` the CV of the
trailing `min(window, i+1)` cells, never looking ahead. -/
noncomputable def rollingCV (cells : List (Option ℚ)) (w : ℕ) : List PFloat :=
  (List.range cells.length).map fun i =>
    coefficientOfVariation ((cells.take (i + 1)).drop (i + 1 - w))

/-- pandas `series.mean()` over a series of float outcomes: NaN entries
are skipped, a remaining `+inf` dominates the sum, and the mean of no
remaining entries is NaN. -/
noncomputable def seriesMean (l : List PFloat) : PFloat :=
  let kept := l.filter fun c => match c with | .nan => false | _ => true
  if kept.length = 0 then .nan
  else if kept.any (fun c => match c with | .inf => true | _ => false) then .inf
  else .val ((kept.map fun c => match c with | .val x => x | _ => 0).sum / kept.length)

/-- `calculate_population_stability(df, species, window)`: NaN when the
population column is absent, else the mean of the rolling CV series. -/
noncomputable def calculatePopulationStability (df : DataFrame) (sp : String) (w : ℕ) : PFloat :=
  if (sp ++ "_population") ∈ df.cols then
    seriesMean (rollingCV (colCells df (sp ++ "_population")) w)
  else .nan

/-- C7: the rolling CV series evaluates each index `i` on the trailing
`min(window, i+1)` cells only; on that window a zero mean of the
non-null values yields the defined value `+inf` (never an exception),
and with at least two non-null values and a nonzero mean it is
`std/mean`. -/
theorem rollingCV_spec (cells : List (Option ℚ)) (w i : ℕ) (hw : 1 ≤ w)
    (hi : i < cells.length) :
    (rollingCV cells w).getD i .nan =
        coefficientOfVariation ((cells.take (i + 1)).drop (i + 1 - w)) ∧
    ((cells.take (i + 1)).drop (i + 1 - w)).length = min w (i + 1) ∧
    (qmean (dropna ((cells.take (i + 1)).drop (i + 1 - w))) = 0 →
      dropna ((cells.take (i + 1)).drop (i + 1 - w)) ≠ [] →
      (rollingCV cells w).getD i .nan = .inf) ∧
    (2 ≤ (dropna ((cells.take (i + 1)).drop (i + 1 - w))).length →
      qmean (dropna ((cells.take (i + 1)).drop (i + 1 - w))) ≠ 0 →
      (rollingCV cells w).getD i .nan =
        .val (sampleStd (dropna ((cells.take (i + 1)).drop (i + 1 - w))) /
          (qmean (dropna ((cells.take (i + 1)).drop (i + 1 - w))) : ℝ))) := by
  have hval : (rollingCV cells w).getD i .nan =
      coefficientOfVariation ((cells.take (i + 1)).drop (i + 1 - w)) := by
    unfold rollingCV
    rw [List.getD_eq_getElem _ _ (by simpa using hi)]
    simp
  refine ⟨hval, ?_, ?_, ?_⟩
  · simp only [List.length_drop, List.length_take]
    omega
  · intro hzero hne
    rw [hval]
    unfold coefficientOfVariation
    have hlen : (dropna ((cells.take (i + 1)).drop (i + 1 - w))).length ≠ 0 := by
      simpa [List.length_eq_zero] using hne
    simp only [hlen, if_false, hzero, if_true]
  · intro hlen hmean
    rw [hval]
    unfold coefficientOfVariation
    simp only []
    rw [if_neg (by omega), if_neg hmean, if_neg (by omega)]

/-- Witness for C7 at a concrete two-cell zero series. -/
theorem rollingCV_spec_witness :
    (rollingCV [some 0, some 0] 2).getD 1 .nan =
      coefficientOfVariation (([some 0, some 0].take (1 + 1)).drop (1 + 1 - 2)) :=
  (rollingCV_spec [some 0, some 0] 2 1 (by decide) (by decide)).1

/-- `detect_extinction_risk(df, species, threshold)` from
`stability_metrics.py`: `(min_pop < threshold, min_pop)` where
`min_pop = df[pop_col].min()` (NaN-skipping; the min of an empty or
all-NaN column is NaN, and `NaN < threshold` is false in Python, hence
`(False, NaN)`); `(False, NaN)` when the column is absent. -/
def detectExtinctionRisk (df : DataFrame) (sp : String) (threshold : ℚ) : Bool × Option ℚ :=
  if (sp ++ "_population") ∈ df.cols then
    match (dropna (colCells df (sp ++ "_population"))).min? with
    | some m => (decide (m < threshold), some m)
    | none => (false, none)
  else (false, none)

/-- C10: with the population column present and some non-null value,
`detect_extinction_risk` returns the column minimum and flags risk
exactly when that minimum is strictly below the threshold — a minimum
equal to the threshold is not at risk — and an absent column gives
`(False, NaN)` without raising. -/
theorem detectExtinctionRisk_spec (df : DataFrame) (sp : String) (t m : ℚ)
    (hcol : (sp ++ "_population") ∈ df.cols)
    (hmin : (dropna (colCells df (sp ++ "_population"))).min? = some m) :
    detectExtinctionRisk df sp t = (decide (m < t), some m) ∧
    m ∈ dropna (colCells df (sp ++ "_population")) ∧
    (∀ v ∈ dropna (colCells df (sp ++ "_population")), m ≤ v) ∧
    (m = t → (detectExtinctionRisk df sp t).1 = false) ∧
    (∀ df2 sp2, (sp2 ++ "_population") ∉ df2.cols →
      detectExtinctionRisk df2 sp2 t = (false, none)) := by
  have heq : detectExtinctionRisk df sp t = (decide (m < t), some m) := by
    unfold detectExtinctionRisk
    rw [if_pos hcol, hmin]
  have anti : Std.Antisymm ((· : ℚ) ≤ ·) := ⟨fun h1 h2 => le_antisymm h1 h2⟩
  have hchar := (List.min?_eq_some_iff (fun a => le_refl a) (fun a b => min_choice a b)
    (fun a b c => le_min_iff)).mp hmin
  refine ⟨heq, hchar.1, fun v hv => hchar.2 v hv, ?_, ?_⟩
  · intro hmt
    rw [heq]
    simp [hmt]
  · intro df2 sp2 habs
    unfold detectExtinctionRisk
    rw [if_neg habs]

/-- Witness for C10 at a concrete one-row table. -/
theorem detectExtinctionRisk_spec_witness :
    detectExtinctionRisk ⟨["x_population"], [⟨0, [("x_population", 3)]⟩]⟩ "x" 10 =
      (decide ((3 : ℚ) < 10), some 3) :=
  (detectExtinctionRisk_spec ⟨["x_population"], [⟨0, [("x_population", 3)]⟩]⟩ "x" 10 3
    (by decide) rfl).1

/-! ## Biodiversity (`calculate_biodiversity_index`) -/

/-- The per-tick population list collected by
`calculate_biodiversity_index`: one cell per listed species whose
population column exists in the frame. -/
def rowPopulations (df : DataFrame) (r : Row) (species : List String) : List (Option ℚ) :=
  species.filterMap fun sp =>
    if (sp ++ "_population") ∈ df.cols then some (r.vals.lookup (sp ++ "_population")) else none

/-- The Shannon loop of `calculate_biodiversity_index` for one tick:
`-Σ p·ln p` over the strictly positive populations, `p = pop / total`. -/
noncomputable def shannonOf (pops : List ℚ) : ℝ :=
  ((pops.filter fun p => decide (0 < p)).map fun p =>
    -(((p / pops.sum : ℚ) : ℝ) * Real.log ((p / pops.sum : ℚ) : ℝ))).sum

/-- One entry of `calculate_biodiversity_index(df, species)`.  When some
collected cell is NaN the float code takes the `total != 0` path
(`NaN == 0` is false); each strictly positive population then
contributes a NaN term (`pop / NaN`), while NaN populations are skipped
by `pop > 0`, so the entry is NaN exactly when some real population is
positive and 0 otherwise.  Without NaN cells it is 0 for a zero total,
else the Shannon sum. -/
noncomputable def biodiversityRow (df : DataFrame) (r : Row) (species : List String) : PFloat :=
  let cells := rowPopulations df r species
  if cells.any (·.isNone) then
    if (dropna cells).any (fun p => decide (0 < p)) then .nan else .val 0
  else
    if (dropna cells).sum = 0 then .val 0 else .val (shannonOf (dropna cells))

/-- `calculate_biodiversity_index(df, species)`: the per-tick series. -/
noncomputable def calculateBiodiversityIndex (df : DataFrame) (species : List String) :
    List PFloat :=
  df.rows.map fun r => biodiversityRow df r species

lemma sum_eq_count_mul {l : List ℚ} {c : ℚ} (h : ∀ p ∈ l, p = c ∨ p = 0) :
    l.sum = (l.count c : ℚ) * c := by
  induction l with
  | nil => simp
  | cons a t ih =>
    have ht := ih fun p hp => h p (by simp [hp])
    rcases h a (by simp) with rfl | rfl
    · rw [List.sum_cons, List.count_cons_self, ht]
      push_cast
      ring
    · by_cases hc : c = 0
      · subst hc
        rw [List.sum_cons, List.count_cons_self, ht]
        push_cast
        ring
      · rw [List.sum_cons, List.count_cons_of_ne hc, ht]
        ring

lemma filter_pos_of_all_eq {l : List ℚ} {c : ℚ} (hc : 0 < c) (h : ∀ p ∈ l, p = c ∨ p = 0) :
    l.filter (fun p => decide (0 < p)) = List.replicate (l.count c) c := by
  induction l with
  | nil => simp
  | cons a t ih =>
    have ht := ih fun p hp => h p (by simp [hp])
    rcases h a (by simp) with rfl | rfl
    · rw [List.filter_cons_of_pos (by simpa using hc), List.count_cons_self, ht,
        List.replicate_succ]
    · rw [List.filter_cons_of_neg (by simp), List.count_cons_of_ne (ne_of_gt hc), ht]

lemma sum_map_const {l : List ℚ} {k : ℝ} {f : ℚ → ℝ} (h : ∀ x ∈ l, f x = k) :
    (l.map f).sum = l.length * k := by
  induction l with
  | nil => simp
  | cons a t ih =>
    simp only [List.map_cons, List.sum_cons, List.length_cons]
    rw [h a (by simp), ih fun x hx => h x (by simp [hx])]
    push_cast
    ring

/-- C5 (amended): with all collected population cells present, the
per-tick biodiversity entry is the Shannon entropy of the positive
populations; a zero total gives the defined value 0, and a tick where
the nonzero populations are exactly `n` copies of one value `c > 0`
gives `ln n`.  (The converse "0 only when the total is 0" is refuted by
`biodiversityRow_single_species_counterexample`.) -/
theorem biodiversityRow_spec (df : DataFrame) (r : Row) (species : List String)
    (c : ℚ) (n : ℕ)
    (hsome : ∀ o ∈ rowPopulations df r species, o.isSome)
    (heq : ∀ p ∈ dropna (rowPopulations df r species), p = c ∨ p = 0)
    (hcount : (dropna (rowPopulations df r species)).count c = n) :
    ((dropna (rowPopulations df r species)).sum = 0 → biodiversityRow df r species = .val 0) ∧
    (0 < c → 0 < n → biodiversityRow df r species = .val (Real.log n)) := by
  have hnone : (rowPopulations df r species).any (·.isNone) = false := by
    simp only [List.any_eq_false]
    intro o ho
    simpa [Option.isNone_iff_eq_none] using Option.isSome_iff_ne_none.mp (hsome o ho)
  constructor
  · intro hzero
    unfold biodiversityRow
    simp only [hnone, Bool.false_eq_true, if_false, hzero, if_true]
  · intro hc hn
    set pops := dropna (rowPopulations df r species) with hpops
    have hsum : pops.sum = (n : ℚ) * c := by
      rw [sum_eq_count_mul heq, hcount]
    have hcne : c ≠ 0 := ne_of_gt hc
    have hnne : (n : ℚ) ≠ 0 := by positivity
    have hsumne : pops.sum ≠ 0 := by
      rw [hsum]
      positivity
    have hshannon : shannonOf pops = Real.log n := by
      unfold shannonOf
      rw [filter_pos_of_all_eq hc heq, hcount]
      have hterm : ∀ x ∈ List.replicate n c,
          -(((x / pops.sum : ℚ) : ℝ) * Real.log ((x / pops.sum : ℚ) : ℝ)) =
            (1 / (n : ℝ)) * Real.log n := by
        intro x hx
        rw [List.eq_of_mem_replicate hx]
        have hratio : (c / pops.sum : ℚ) = 1 / (n : ℚ) := by
          rw [hsum]
          field_simp
          ring
        rw [hratio]
        push_cast
        rw [Real.log_div one_ne_zero (by positivity), Real.log_one]
        ring
      rw [sum_map_const hterm, List.length_replicate]
      have : (n : ℝ) ≠ 0 := by positivity
      field_simp
    unfold biodiversityRow
    simp only [hnone, Bool.false_eq_true, if_false, ← hpops, hsumne, if_false, hshannon]

/-- Witness for C5 at a tick with two equal positive populations. -/
theorem biodiversityRow_spec_witness :
    biodiversityRow ⟨["a_population", "b_population"],
        [⟨0, [("a_population", 4), ("b_population", 4)]⟩]⟩
      ⟨0, [("a_population", 4), ("b_population", 4)]⟩ ["a", "b"] = .val (Real.log 2) := by
  have h := (biodiversityRow_spec ⟨["a_population", "b_population"],
        [⟨0, [("a_population", 4), ("b_population", 4)]⟩]⟩
      ⟨0, [("a_population", 4), ("b_population", 4)]⟩ ["a", "b"] 4 2
      (by simp [rowPopulations, List.lookup])
      (by simp [rowPopulations, dropna, List.lookup])
      (by simp [rowPopulations, dropna, List.lookup, List.count_cons])).2
      (by norm_num) (by norm_num)
  simpa using h

/-- Counterexample to C5 as stated: with species `a` at population 5 and
`b` at 0, the total is 5 (nonzero) yet the biodiversity entry is 0 — a
single species holding the whole population has zero entropy, so the
index is not 0 "exactly when" the total is 0. -/
theorem biodiversityRow_single_species_counterexample :
    (dropna (rowPopulations ⟨["a_population", "b_population"],
        [⟨0, [("a_population", 5), ("b_population", 0)]⟩]⟩
      ⟨0, [("a_population", 5), ("b_population", 0)]⟩ ["a", "b"])).sum = 5 ∧
    biodiversityRow ⟨["a_population", "b_population"],
        [⟨0, [("a_population", 5), ("b_population", 0)]⟩]⟩
      ⟨0, [("a_population", 5), ("b_population", 0)]⟩ ["a", "b"] = .val 0 := by
  constructor
  · simp [rowPopulations, dropna, List.lookup]
  · unfold biodiversityRow shannonOf
    simp [rowPopulations, dropna, List.lookup]

/-! ## Oscillation detection (`detect_oscillation`,
`classify_population_dynamics`) -/

/-- `series.diff()`: NaN at index 0, then adjacent differences, with NaN
cells propagating. -/
def seriesDiff (cells : List (Option ℚ)) : List (Option ℚ) :=
  (List.range cells.length).map fun i =>
    if i = 0 then none
    else
      match cells.getD (i - 1) none, cells.getD i none with
      | some a, some b => some (b - a)
      | _, _ => none

/-- `(derivative.shift(1) * derivative < 0).astype(int)`: indicator 1
where both the previous and the current first difference exist and their
product is negative; any comparison involving NaN is false in Python, so
indices 0 and 1 (and any NaN neighbourhood) give 0. -/
def signChanges (cells : List (Option ℚ)) : List ℚ :=
  (List.range cells.length).map fun i =>
    if i = 0 then 0
    else
      match (seriesDiff cells).getD (i - 1) none, (seriesDiff cells).getD i none with
      | some a, some b => if a * b < 0 then 1 else 0
      | _, _ => 0

/-- `s.rolling(window, min_periods=1).mean()` on a NaN-free series: at
index `i` the mean of the trailing `min(window, i+1)` values. -/
def rollingMeanQ (s : List ℚ) (w : ℕ) : List ℚ :=
  (List.range s.length).map fun i => qmean ((s.take (i + 1)).drop (i + 1 - w))

/-- `detect_oscillation(series, window)` from `stability_metrics.py`:
the overall mean of the rolling mean of the sign-change indicators
(`oscillation_freq.mean()`); NaN (`none`) for an empty series. -/
def detectOscillation (cells : List (Option ℚ)) (w : ℕ) : Option ℚ :=
  if cells.length = 0 then none
  else some (qmean (rollingMeanQ (signChanges cells) w))

/-- Modelled from the spec's words for comparison: "fraction of adjacent
sign changes in the first difference within a trailing window" — the
mean of the trailing `min(window, length)` sign-change indicators. -/
def specOscillationScore (cells : List (Option ℚ)) (w : ℕ) : ℚ :=
  qmean ((signChanges cells).drop ((signChanges cells).length - w))

/-- `classify_population_dynamics(df, species, window)` from
`stability_metrics.py`.  `none` models the exception raised by
`population.iloc[-1]` on an empty frame.  Python comparisons with NaN
are false, which selects the explicit fallback branches below. -/
noncomputable def classifyPopulationDynamics (df : DataFrame) (sp : String) (w : ℕ) :
    Option String :=
  if (sp ++ "_population") ∈ df.cols then
    let population := colCells df (sp ++ "_population")
    match population.getLast? with
    | none => none
    | some lastCell =>
      if lastCell = some 0 then some "extinct"
      else if (match detectOscillation population w with
               | some q => decide (q > 3/10)
               | none => false) then some "oscillating"
      else
        -- `population.iloc[-window:]`; `iloc[-0:]` is the whole series
        let recent := if w = 0 then population else population.drop (population.length - w)
        match coefficientOfVariation recent with
        | .val x =>
          if @decide (x < 1/10) (Classical.propDecidable _) then
            match recent.getLast?, recent.head? with
            | some (some a), some (some b) =>
              if decide (dropna recent ≠ [] ∧ |a - b| < qmean (dropna recent) * (1/10)) then
                some "stable"
              else if decide (a - b > 0) then some "growing"
              else some "declining"
            | _, _ => some "declining"
          else some "unstable"
        | _ => some "unstable"
  else some "unknown"

lemma signChanges_mem {cells : List (Option ℚ)} {x : ℚ} (hx : x ∈ signChanges cells) :
    x = 0 ∨ x = 1 := by
  unfold signChanges at hx
  obtain ⟨i, _, hfi⟩ := List.mem_map.mp hx
  by_cases h0 : i = 0
  · simp [h0] at hfi
    exact Or.inl hfi.symm
  · rw [if_neg h0] at hfi
    rcases hd : (seriesDiff cells).getD (i - 1) none with _ | a <;>
      rcases hd2 : (seriesDiff cells).getD i none with _ | b <;>
        rw [hd, hd2] at hfi <;> simp at hfi
    · exact Or.inl hfi.symm
    · exact Or.inl hfi.symm
    · exact Or.inl hfi.symm
    · by_cases hab : a * b < 0
      · rw [if_pos hab] at hfi
        exact Or.inr hfi.symm
      · rw [if_neg hab] at hfi
        exact Or.inl hfi.symm

lemma qmean_mem_unit {l : List ℚ} (hne : l ≠ [])
    (hmem : ∀ x ∈ l, 0 ≤ x ∧ x ≤ 1) : 0 ≤ qmean l ∧ qmean l ≤ 1 := by
  have hlen : (0 : ℚ) < l.length := by
    have := List.length_pos.mpr hne
    exact_mod_cast this
  have hsum0 : 0 ≤ l.sum := List.sum_nonneg fun x hx => (hmem x hx).1
  have hsum1 : l.sum ≤ (l.length : ℚ) := by
    have := List.sum_le_card_nsmul l 1 fun x hx => (hmem x hx).2
    simpa using this
  constructor
  · exact div_nonneg hsum0 (le_of_lt hlen)
  · rw [qmean, div_le_one hlen]
    exact hsum1

lemma rollingMeanQ_mem_unit {s : List ℚ} {w : ℕ} (hw : 1 ≤ w)
    (hmem : ∀ x ∈ s, x = 0 ∨ x = 1) :
    ∀ y ∈ rollingMeanQ s w, 0 ≤ y ∧ y ≤ 1 := by
  intro y hy
  unfold rollingMeanQ at hy
  obtain ⟨i, hi, hfi⟩ := List.mem_map.mp hy
  rw [List.mem_range] at hi
  have hslice : ((s.take (i + 1)).drop (i + 1 - w)).length = min w (i + 1) := by
    simp only [List.length_drop, List.length_take]
    omega
  refine hfi ▸ qmean_mem_unit ?_ ?_
  · intro hnil
    rw [hnil] at hslice
    simp at hslice
    omega
  · intro x hx
    have hxs : x ∈ s := List.mem_of_mem_take (List.mem_of_mem_drop hx)
    rcases hmem x hxs with rfl | rfl
    · norm_num
    · norm_num

/-- C8 (amended): `detect_oscillation` returns the mean over all indices
of the trailing-window fraction of adjacent sign changes in the first
difference; for every nonempty series and window `≥ 1` (pandas rejects
`rolling(0)`) that score lies in `[0, 1]` unconditionally, and a score
above `0.3` classifies a non-extinct series as `oscillating`.  (That the
score equals the single trailing-window fraction itself is refuted by
`detectOscillation_trailing_fraction_counterexample`.) -/
theorem detectOscillation_spec (cells : List (Option ℚ)) (w : ℕ)
    (hw : 1 ≤ w) (hne : cells ≠ []) :
    (∃ q, detectOscillation cells w = some q ∧ 0 ≤ q ∧ q ≤ 1) ∧
    (∀ df sp q, colCells df (sp ++ "_population") = cells →
      (sp ++ "_population") ∈ df.cols →
      cells.getLast? ≠ some (some 0) →
      detectOscillation cells w = some q → 3/10 < q →
      classifyPopulationDynamics df sp w = some "oscillating") := by
  have hlen : cells.length ≠ 0 := by
    simpa [List.length_eq_zero] using hne
  have hval : detectOscillation cells w = some (qmean (rollingMeanQ (signChanges cells) w)) := by
    rw [detectOscillation, if_neg hlen]
  have hsclen : (signChanges cells).length = cells.length := by
    simp [signChanges]
  have hbounds : 0 ≤ qmean (rollingMeanQ (signChanges cells) w) ∧
      qmean (rollingMeanQ (signChanges cells) w) ≤ 1 := by
    refine qmean_mem_unit ?_ (rollingMeanQ_mem_unit hw fun x hx => signChanges_mem hx)
    intro hnil
    have : (rollingMeanQ (signChanges cells) w).length = 0 := by
      rw [hnil]; rfl
    rw [rollingMeanQ, List.length_map, List.length_range, hsclen] at this
    exact hlen this
  refine ⟨⟨qmean (rollingMeanQ (signChanges cells) w), hval, hbounds.1, hbounds.2⟩, ?_⟩
  intro df sp q hcells hcol hlast hosc hq
  obtain ⟨c, hlast'⟩ : ∃ c, cells.getLast? = some c := by
    cases hgl : cells.getLast? with
    | none => exact absurd (List.getLast?_eq_none_iff.mp hgl) hne
    | some c => exact ⟨c, rfl⟩
  have hcne : ¬ c = some 0 := by
    intro hc0
    exact hlast (hc0 ▸ hlast')
  unfold classifyPopulationDynamics
  rw [if_pos hcol]
  simp only [hcells, hlast']
  rw [if_neg hcne, hosc]
  simp only [decide_eq_true_eq]
  rw [if_pos hq]

/-- Witness for C8: the bound and the classification at a concrete
alternating series (score `3/8 > 3/10`). -/
theorem detectOscillation_spec_witness :
    (∃ q, detectOscillation [some 1, some 2, some 1, some 2] 2 = some q ∧ 0 ≤ q ∧ q ≤ 1) ∧
    classifyPopulationDynamics ⟨["x_population"],
      [⟨0, [("x_population", 1)]⟩, ⟨1, [("x_population", 2)]⟩,
       ⟨2, [("x_population", 1)]⟩, ⟨3, [("x_population", 2)]⟩]⟩ "x" 2 =
      some "oscillating" := by
  have h := detectOscillation_spec [some 1, some 2, some 1, some 2] 2 (by norm_num) (by decide)
  refine ⟨h.1, ?_⟩
  refine h.2 ⟨["x_population"],
      [⟨0, [("x_population", 1)]⟩, ⟨1, [("x_population", 2)]⟩,
       ⟨2, [("x_population", 1)]⟩, ⟨3, [("x_population", 2)]⟩]⟩ "x" (3/8)
    (by simp [colCells, List.lookup]) (by decide) (by decide) ?_ (by norm_num)
  simp [detectOscillation, rollingMeanQ, signChanges, seriesDiff, qmean, List.range_succ]
  norm_num

/-- Counterexample to C8 as stated: on the series `[0, 1, 0]` with
window 20 the code returns `1/9` (the mean over all indices of the
rolling trailing-window fractions), while the fraction of adjacent sign
changes within the trailing window is `1/3`. -/
theorem detectOscillation_trailing_fraction_counterexample :
    detectOscillation [some 0, some 1, some 0] 20 = some (1/9) ∧
    specOscillationScore [some 0, some 1, some 0] 20 = 1/3 ∧
    detectOscillation [some 0, some 1, some 0] 20 ≠
      some (specOscillationScore [some 0, some 1, some 0] 20) := by
  refine ⟨?_, ?_, ?_⟩
  · simp [detectOscillation, rollingMeanQ, signChanges, seriesDiff, qmean, List.range_succ]
    norm_num
  · simp [specOscillationScore, signChanges, seriesDiff, qmean, List.range_succ]
  · simp [detectOscillation, specOscillationScore, rollingMeanQ, signChanges, seriesDiff,
      qmean, List.range_succ]
    norm_num

/-! ## Extinction events (`analyze_extinction_events` in
`generate_full_report.py`) -/

/-- One record appended to `extinctions`:
`{'species': sp, 'tick': int(extinction_tick), 'max_population': int(max_pop)}`. -/
structure ExtinctionEvent where
  species : String
  tick : ℤ
  max_population : ℤ
deriving DecidableEq, Repr

/-- Python `int()` on a float: truncation toward zero. -/
def pyInt (q : ℚ) : ℤ :=
  if 0 ≤ q then ⌊q⌋ else ⌈q⌉

/-- `df[f'populations_{sp}'].dropna()` together with each surviving
row's tick: the code keeps the pandas index labels through `dropna` and
maps the first-zero label back through `df.loc[idx, 'tick']`, which is
exactly the tick paired here. -/
def popSeries (df : DataFrame) (sp : String) : List (ℤ × ℚ) :=
  df.rows.filterMap fun r =>
    (r.vals.lookup ("populations_" ++ sp)).map fun v => (r.tick, v)

/-- `analyze_extinction_events` (data part): for each listed species
with a `populations_<sp>` column the code checks `len(pop_series) > 0`,
reads `final_pop = pop_series.iloc[-1]` and `max_pop = pop_series.max()`
(here `getLastD 0` / `max?.getD 0`, only consulted on a nonempty
series), and if the final population is 0 and the maximum is positive
records the species, the tick of the first zero row, and the
(truncated) maximum. -/
def analyzeExtinctionEvents (df : DataFrame) (species : List String) : List ExtinctionEvent :=
  species.filterMap fun sp =>
    if ("populations_" ++ sp) ∈ df.cols then
      if (popSeries df sp).length = 0 then none
      else
        if ((popSeries df sp).map Prod.snd).getLastD 0 = 0 ∧
            0 < (((popSeries df sp).map Prod.snd).max?).getD 0 then
          ((popSeries df sp).find? fun p => decide (p.2 = 0)).map fun firstZero =>
            { species := sp, tick := firstZero.1,
              max_population := pyInt ((((popSeries df sp).map Prod.snd).max?).getD 0) }
        else none
    else none

lemma find?_eq_some_first {α : Type} {l : List α} {p : α → Bool} {a : α} :
    l.find? p = some a ↔
      ∃ i, ∃ h : i < l.length, l.get ⟨i, h⟩ = a ∧ p a = true ∧
        ∀ x ∈ l.take i, p x = false := by
  induction l with
  | nil => simp
  | cons b t ih =>
    by_cases hb : p b = true
    · rw [List.find?_cons_of_pos _ hb]
      constructor
      · intro h
        obtain rfl := Option.some.inj h
        exact ⟨0, by simp, rfl, hb, by simp⟩
      · rintro ⟨i, h, hget, hpa, hfirst⟩
        cases i with
        | zero => simp only [List.get] at hget; rw [hget]
        | succ j =>
          have hfalse : p b = false := hfirst b (by simp [List.take_succ_cons])
          rw [hb] at hfalse
          exact absurd hfalse (by simp)
    · rw [List.find?_cons_of_neg _ hb, ih]
      constructor
      · rintro ⟨i, h, hget, hpa, hfirst⟩
        refine ⟨i + 1, by simpa using Nat.succ_lt_succ h, by simpa using hget, hpa, ?_⟩
        intro x hx
        rw [List.take_succ_cons] at hx
        rcases List.mem_cons.mp hx with rfl | hx'
        · exact Bool.eq_false_iff.mpr hb
        · exact hfirst x hx'
      · rintro ⟨i, h, hget, hpa, hfirst⟩
        cases i with
        | zero =>
          simp only [List.get] at hget
          rw [← hget] at hpa
          exact absurd hpa hb
        | succ j =>
          refine ⟨j, by simpa using Nat.lt_of_succ_lt_succ h, by simpa using hget, hpa, ?_⟩
          intro x hx
          exact hfirst x (by rw [List.take_succ_cons]; exact List.mem_cons_of_mem _ hx)

lemma max?_eq_some_iff_q {l : List ℚ} {m : ℚ} :
    l.max? = some m ↔ m ∈ l ∧ ∀ x ∈ l, x ≤ m := by
  have anti : Std.Antisymm ((· : ℚ) ≤ ·) := ⟨fun h1 h2 => le_antisymm h1 h2⟩
  exact List.max?_eq_some_iff (fun a => le_refl a) (fun a b => max_choice a b)
    (fun a b c => max_le_iff)

/-- C6: the reported extinction events are exactly the listed species
whose (present, non-null, nonempty) population series ends at 0 and has
a positive historical maximum; each event carries the tick of the first
zero row and the truncated historical maximum.  A species whose
population never exceeds 0 fails the `max > 0` test and is never
reported. -/
theorem analyzeExtinctionEvents_spec (df : DataFrame) (species : List String)
    (e : ExtinctionEvent) :
    e ∈ analyzeExtinctionEvents df species ↔
      ∃ sp ∈ species, ("populations_" ++ sp) ∈ df.cols ∧
        (∃ hne : popSeries df sp ≠ [], ((popSeries df sp).getLast hne).2 = 0) ∧
        (∃ m, m ∈ (popSeries df sp).map Prod.snd ∧ 0 < m ∧
          (∀ v ∈ (popSeries df sp).map Prod.snd, v ≤ m) ∧ e.max_population = pyInt m) ∧
        (∃ i, ∃ h : i < (popSeries df sp).length, ((popSeries df sp).get ⟨i, h⟩).2 = 0 ∧
          (∀ p ∈ (popSeries df sp).take i, p.2 ≠ 0) ∧
          e.tick = ((popSeries df sp).get ⟨i, h⟩).1) ∧
        e.species = sp := by
  rw [analyzeExtinctionEvents, List.mem_filterMap]
  constructor
  · rintro ⟨sp, hsp, hf⟩
    refine ⟨sp, hsp, ?_⟩
    by_cases hcol : ("populations_" ++ sp) ∈ df.cols
    swap
    · rw [if_neg hcol] at hf
      exact absurd hf (by simp)
    rw [if_pos hcol] at hf
    by_cases hlen : (popSeries df sp).length = 0
    · rw [if_pos hlen] at hf
      exact absurd hf (by simp)
    rw [if_neg hlen] at hf
    have hne : popSeries df sp ≠ [] := by
      intro h0
      exact hlen (by rw [h0]; rfl)
    have hVne : (popSeries df sp).map Prod.snd ≠ [] := by
      simpa using hne
    cases hm : ((popSeries df sp).map Prod.snd).max? with
    | none => exact absurd (List.max?_eq_none_iff.mp hm) hVne
    | some m =>
      rw [hm, Option.getD_some] at hf
      by_cases hcond : ((popSeries df sp).map Prod.snd).getLastD 0 = 0 ∧ 0 < m
      swap
      · rw [if_neg hcond] at hf
        exact absurd hf (by simp)
      rw [if_pos hcond] at hf
      cases hfind : (popSeries df sp).find? fun p => decide (p.2 = 0) with
      | none => rw [hfind] at hf; exact absurd hf (by simp)
      | some firstZero =>
        rw [hfind, Option.map_some'] at hf
        obtain rfl := Option.some.inj hf
        have hlastconv : ((popSeries df sp).map Prod.snd).getLastD 0 =
            ((popSeries df sp).getLast hne).2 := by
          rw [List.getLastD_eq_getLast?, List.getLast?_map, List.getLast?_eq_getLast _ hne,
            Option.map_some', Option.getD_some]
        have hmaxc := max?_eq_some_iff_q.mp hm
        obtain ⟨i, hi, hget, hpa, hfirst⟩ := find?_eq_some_first.mp hfind
        refine ⟨hcol, ⟨hne, hlastconv ▸ hcond.1⟩, ⟨m, hmaxc.1, hcond.2, hmaxc.2, rfl⟩,
          ⟨i, hi, ?_, ?_, ?_⟩, rfl⟩
        · rw [hget]
          simpa using hpa
        · intro p hp
          simpa using hfirst p hp
        · rw [hget]
  · rintro ⟨sp, hsp, hcol, ⟨hne, hlastz⟩, ⟨m, hmmem, hmpos, hmub, hemax⟩,
      ⟨i, hi, hiz, hifirst, hetick⟩, hesp⟩
    refine ⟨sp, hsp, ?_⟩
    have hlen : ¬ (popSeries df sp).length = 0 := by
      simpa [List.length_eq_zero] using hne
    have hm : ((popSeries df sp).map Prod.snd).max? = some m :=
      max?_eq_some_iff_q.mpr ⟨hmmem, hmub⟩
    have hlastconv : ((popSeries df sp).map Prod.snd).getLastD 0 =
        ((popSeries df sp).getLast hne).2 := by
      rw [List.getLastD_eq_getLast?, List.getLast?_map, List.getLast?_eq_getLast _ hne,
        Option.map_some', Option.getD_some]
    rw [if_pos hcol, if_neg hlen, hm, Option.getD_some,
      if_pos (by rw [hlastconv]; exact ⟨hlastz, hmpos⟩)]
    have hfind : (popSeries df sp).find? (fun p => decide (p.2 = 0)) =
        some ((popSeries df sp).get ⟨i, hi⟩) := by
      rw [find?_eq_some_first]
      exact ⟨i, hi, rfl, by simpa using hiz, fun x hx => by simpa using hifirst x hx⟩
    rw [hfind, Option.map_some']
    congr 1
    cases e with
    | mk es et em =>
      simp only at hesp hetick hemax
      simp [hesp, hetick, hemax]

/-- Witness is not needed for C6 (the statement is an equivalence over
all inputs), but the scenario from the spec is recorded: populations
`[10, 0, 0]` produce the event `{x, tick 1, max 10}`. -/
theorem analyzeExtinctionEvents_scenario :
    analyzeExtinctionEvents
      ⟨["populations_x"],
        [⟨0, [("populations_x", 10)]⟩, ⟨1, [("populations_x", 0)]⟩,
         ⟨2, [("populations_x", 0)]⟩]⟩ ["x"] =
      [{ species := "x", tick := 1, max_population := 10 }] := by
  simp [analyzeExtinctionEvents, popSeries, List.lookup, pyInt, List.find?]

/-! ## JSONL parsing and multi-file merging (`jsonl_loader.py`)

Python string primitives are re-implemented structurally over `List
Char` so that concrete inputs evaluate inside Lean; `json.loads` is
external, so a data line is modelled at the level of its parse result. -/

/-- A parsed snapshot: its optional integer `tick` entry plus its
remaining flattened scalar content. -/
structure Snapshot where
  tick? : Option ℤ
  fields : List (String × ℚ)
deriving DecidableEq, Repr

/-- One line of a JSONL file at the abstraction level of `json.loads`:
blank, a comment (its stripped text, starting with `#`), a data line
holding a valid JSON snapshot, or a malformed data line. -/
inductive Line where
  | blank : Line
  | comment (text : String) : Line
  | data (s : Snapshot) : Line
  | malformed : Line
deriving DecidableEq, Repr

/-- `parse_jsonl_line`: blank lines and comments give `None`; a valid
data line gives its snapshot; a malformed data line logs a warning and
gives `None` (the load continues). -/
def parseJsonlLine : Line → Option Snapshot
  | .data s => some s
  | _ => none

/-- Python `str.strip()` on the character list. -/
def pyStrip (l : List Char) : List Char :=
  ((l.dropWhile Char.isWhitespace).reverse.dropWhile Char.isWhitespace).reverse

/-- Python `str.split(":", 1)` combined with the `":" in content` guard:
`none` when there is no colon, else the parts before and after the first
colon. -/
def splitOnceColon : List Char → Option (List Char × List Char)
  | [] => none
  | c :: rest =>
    if c = ':' then some ([], rest)
    else (splitOnceColon rest).map fun p => (c :: p.1, p.2)

/-- Python `d[key] = value` on an insertion-ordered dict: overwrite in
place when the key exists, else append. -/
def dictInsert {β : Type} (d : List (String × β)) (k : String) (v : β) : List (String × β) :=
  if d.any fun p => decide (p.1 = k) then
    d.map fun p => if p.1 = k then (k, v) else p
  else d ++ [(k, v)]

/-- Python `d.update(m)`: insert every pair of `m` in order, so a key
present in both keeps `m`'s (the later) value. -/
def dictUpdate {β : Type} (d m : List (String × β)) : List (String × β) :=
  m.foldl (fun acc p => dictInsert acc p.1 p.2) d

/-- `extract_metadata(lines)`: scan the first 20 lines; for each comment
line take `line[2:].strip()`, and on a colon split into
`key.strip().lower().replace(" ", "_")` and `value.strip()`.
Non-comment lines never start with `#` after stripping and are
skipped. -/
def extractMetadata (lines : List Line) : List (String × String) :=
  (lines.take 20).foldl
    (fun md line =>
      match line with
      | .comment text =>
        match splitOnceColon (pyStrip (text.data.drop 2)) with
        | some (k, v) =>
          dictInsert md (String.mk ((pyStrip k).map Char.toLower |>.map
            fun c => if c = ' ' then '_' else c)) (String.mk (pyStrip v))
        | none => md
      | _ => md)
    []

/-- The collection loop of `extract_config_block`: track the
`in_config` flag, stop at `# CONFIG_END`, and collect `line[2:]` of the
`"# "`-prefixed lines seen while inside the block. -/
def extractConfigLoop : List Line → Bool → List String → List String
  | [], _, acc => acc
  | l :: rest, inCfg, acc =>
    match l with
    | .comment text =>
      if text = "# CONFIG_START" then extractConfigLoop rest true acc
      else if text = "# CONFIG_END" then acc
      else if inCfg && ("# ".data.isPrefixOf text.data) then
        extractConfigLoop rest inCfg (acc ++ [String.mk (text.data.drop 2)])
      else extractConfigLoop rest inCfg acc
    | _ => extractConfigLoop rest inCfg acc

/-- `extract_config_block(lines)`: `None` when no config lines were
collected, else the block's text lines (`json.loads` of their join is
external to the model; a decode failure also yields `None` with a
warning). -/
def extractConfigBlock (lines : List Line) : Option (List String) :=
  let cfg := extractConfigLoop lines false []
  if cfg = [] then none else some cfg

/-- `load_jsonl_file`: `(snapshots, config, metadata)` of one file. -/
def loadJsonlFile (lines : List Line) :
    List Snapshot × Option (List String) × List (String × String) :=
  (lines.filterMap parseJsonlLine, extractConfigBlock lines, extractMetadata lines)

/-- The sort key `s.get("tick", 0)` of
`all_snapshots.sort(key=lambda s: s.get("tick", 0))`. -/
def sortKey (s : Snapshot) : ℤ :=
  s.tick?.getD 0

/-- Stable insertion of `x` after all entries with key `≤` its own. -/
def pyInsertSnap (x : Snapshot) : List Snapshot → List Snapshot
  | [] => [x]
  | h :: t => if sortKey h ≤ sortKey x then h :: pyInsertSnap x t else x :: h :: t

/-- `list.sort(key=...)` is Timsort, a stable sort; a stable sort by a
key is unique, so this left-to-right stable insertion sort computes the
same list. -/
def pySortByTick (l : List Snapshot) : List Snapshot :=
  l.foldl (fun acc x => pyInsertSnap x acc) []

/-- `load_multiple_jsonl_files(paths)`: concatenate each file's
snapshots, keep the first non-`None` config, `dict.update` the
metadata (later files overwrite), and finally sort all snapshots by
tick. -/
def loadMultipleJsonlFiles (files : List (List Line)) :
    List Snapshot × Option (List String) × List (String × String) :=
  let r := files.foldl
    (fun acc f =>
      (acc.1 ++ (loadJsonlFile f).1,
       match acc.2.1 with
       | none => (loadJsonlFile f).2.1
       | some c => some c,
       dictUpdate acc.2.2 (loadJsonlFile f).2.2))
    ([], none, [])
  (pySortByTick r.1, r.2.1, r.2.2)

/-- `snapshots_to_dataframe` (flatten path): one row per snapshot in
order; the `tick` column comes from the snapshot's `tick` entry (a
missing tick would be NaN in pandas; the model reuses the sorter's `0`
default, and no claim involves tickless snapshots), the other cells are
the flattened fields, and the column list is the union of keys. -/
def snapshotsToDataframe (snaps : List Snapshot) : DataFrame :=
  { cols := "tick" :: ((snaps.map fun s => s.fields.map Prod.fst).flatten).dedup,
    rows := snaps.map fun s => { tick := s.tick?.getD 0, vals := s.fields } }

lemma pyInsertSnap_mem {x y : Snapshot} {l : List Snapshot} :
    y ∈ pyInsertSnap x l ↔ y = x ∨ y ∈ l := by
  induction l with
  | nil => simp [pyInsertSnap]
  | cons h t ih =>
    by_cases hle : sortKey h ≤ sortKey x
    · simp only [pyInsertSnap, if_pos hle, List.mem_cons, ih]
      tauto
    · simp only [pyInsertSnap, if_neg hle, List.mem_cons]

lemma pyInsertSnap_sorted {x : Snapshot} {l : List Snapshot}
    (h : List.Sorted (· ≤ ·) (l.map sortKey)) :
    List.Sorted (· ≤ ·) ((pyInsertSnap x l).map sortKey) := by
  induction l with
  | nil => simp [pyInsertSnap]
  | cons hd t ih =>
    rw [List.map_cons, List.sorted_cons] at h
    by_cases hle : sortKey hd ≤ sortKey x
    · rw [pyInsertSnap, if_pos hle, List.map_cons, List.sorted_cons]
      refine ⟨?_, ih h.2⟩
      intro b hb
      obtain ⟨y, hy, rfl⟩ := List.mem_map.mp hb
      rcases pyInsertSnap_mem.mp hy with rfl | hyt
      · exact hle
      · exact h.1 _ (List.mem_map_of_mem _ hyt)
    · rw [pyInsertSnap, if_neg hle, List.map_cons, List.map_cons, List.sorted_cons]
      refine ⟨?_, ?_⟩
      · intro b hb
        rcases List.mem_cons.mp hb with rfl | hbt
        · exact le_of_not_le hle
        · exact le_trans (le_of_not_le hle) (h.1 _ hbt)
      · rw [List.sorted_cons]
        exact h

lemma pyInsertSnap_perm (x : Snapshot) (l : List Snapshot) :
    (pyInsertSnap x l).Perm (x :: l) := by
  induction l with
  | nil => simp [pyInsertSnap]
  | cons h t ih =>
    by_cases hle : sortKey h ≤ sortKey x
    · rw [pyInsertSnap, if_pos hle]
      exact ((ih.cons h).trans (List.Perm.swap x h t))
    · rw [pyInsertSnap, if_neg hle]

lemma pySortByTick_sorted_perm (l : List Snapshot) :
    List.Sorted (· ≤ ·) ((pySortByTick l).map sortKey) ∧ (pySortByTick l).Perm l := by
  suffices h : ∀ acc, List.Sorted (· ≤ ·) (acc.map sortKey) →
      List.Sorted (· ≤ ·) ((l.foldl (fun acc x => pyInsertSnap x acc) acc).map sortKey) ∧
      (l.foldl (fun acc x => pyInsertSnap x acc) acc).Perm (acc ++ l) by
    have := h [] (by simp)
    simpa [pySortByTick] using this
  induction l with
  | nil => intro acc hacc; simpa using hacc
  | cons x t ih =>
    intro acc hacc
    have hstep := ih (pyInsertSnap x acc) (pyInsertSnap_sorted hacc)
    refine ⟨hstep.1, ?_⟩
    refine hstep.2.trans ?_
    exact ((pyInsertSnap_perm x acc).append_right t).trans List.perm_middle.symm

/-- C3 (code-bug evidence): `load_multiple_jsonl_files` merges metadata
with `merged_metadata.update(metadata)`, so a key present in an earlier
file is overwritten by a later file — the later value `"20"` wins here —
contradicting the function's own docstring ("Config and metadata from
first file take precedence") and the claim.  The snapshot and config
parts behave as claimed:  snapshots are the tick-sorted concatenation
and the first file's config wins. -/
theorem loadMultipleJsonlFiles_metadata_later_wins :
    (loadMultipleJsonlFiles
        [[Line.comment "# Snapshots: 10", Line.data ⟨some 7, []⟩],
         [Line.comment "# Snapshots: 20", Line.data ⟨some 3, []⟩]]) =
      ([⟨some 3, []⟩, ⟨some 7, []⟩], none, [("snapshots", "20")]) := by
  decide

/-- C4 (amended): a table assembled by merging snapshots from multiple
files has its rows ordered by nondecreasing tick (the sort key
`s.get("tick", 0)`), and its snapshots are a permutation of the
concatenation of the files' snapshots; but the ordering is not strict —
duplicate ticks survive the merge (see
`mergedTable_duplicate_tick_counterexample`). -/
theorem mergedTable_ticks_sorted (files : List (List Line)) :
    List.Sorted (· ≤ ·)
      ((snapshotsToDataframe (loadMultipleJsonlFiles files).1).rows.map Row.tick) ∧
    (loadMultipleJsonlFiles files).1.Perm
      ((files.map fun f => (loadJsonlFile f).1).flatten) := by
  have hmaps : ∀ snaps : List Snapshot,
      (snapshotsToDataframe snaps).rows.map Row.tick = snaps.map sortKey := by
    intro snaps
    simp [snapshotsToDataframe, sortKey, Function.comp]
  have hfold : ∀ (files : List (List Line)) (acc : List Snapshot × Option (List String) ×
      List (String × String)),
      (files.foldl
        (fun acc f =>
          (acc.1 ++ (loadJsonlFile f).1,
           match acc.2.1 with
           | none => (loadJsonlFile f).2.1
           | some c => some c,
           dictUpdate acc.2.2 (loadJsonlFile f).2.2)) acc).1 =
        acc.1 ++ (files.map fun f => (loadJsonlFile f).1).flatten := by
    intro files
    induction files with
    | nil => intro acc; simp
    | cons f t ih =>
      intro acc
      rw [List.foldl_cons, ih]
      simp
  have hsp := pySortByTick_sorted_perm
    (([] : List Snapshot) ++ (files.map fun f => (loadJsonlFile f).1).flatten)
  constructor
  · rw [hmaps]
    have : (loadMultipleJsonlFiles files).1 =
        pySortByTick ((files.map fun f => (loadJsonlFile f).1).flatten) := by
      rw [loadMultipleJsonlFiles]
      simp only [hfold files ([], none, [])]
      rfl
    rw [this]
    simpa using (pySortByTick_sorted_perm ((files.map fun f => (loadJsonlFile f).1).flatten)).1
  · have : (loadMultipleJsonlFiles files).1 =
        pySortByTick ((files.map fun f => (loadJsonlFile f).1).flatten) := by
      rw [loadMultipleJsonlFiles]
      simp only [hfold files ([], none, [])]
      rfl
    rw [this]
    exact (pySortByTick_sorted_perm ((files.map fun f => (loadJsonlFile f).1).flatten)).2

/-- Counterexample to C4 as stated: merging two files that both carry a
snapshot at tick 5 (the intended multi-file use: core/genetics/behavior
files of the same run) yields a table whose tick column is `[5, 5]` —
sorted, but with a duplicate tick, violating the strictly-increasing
no-duplicate invariant. -/
theorem mergedTable_duplicate_tick_counterexample :
    ((snapshotsToDataframe (loadMultipleJsonlFiles
        [[Line.data ⟨some 5, [("a", 1)]⟩], [Line.data ⟨some 5, [("b", 2)]⟩]]).1).rows.map
      Row.tick) = [5, 5] ∧
    ¬ List.Pairwise (· < ·)
      ((snapshotsToDataframe (loadMultipleJsonlFiles
          [[Line.data ⟨some 5, [("a", 1)]⟩], [Line.data ⟨some 5, [("b", 2)]⟩]]).1).rows.map
        Row.tick) := by
  constructor
  · decide
  · intro h
    have : (5 : ℤ) < 5 := by
      have hd := h
      rw [show ((snapshotsToDataframe (loadMultipleJsonlFiles
          [[Line.data ⟨some 5, [("a", 1)]⟩], [Line.data ⟨some 5, [("b", 2)]⟩]]).1).rows.map
        Row.tick) = [5, 5] from by decide] at hd
      exact List.rel_of_pairwise_cons hd (by simp)
    omega

/-! ## Multi-rate export loading (`multirate_loader.py`) -/

/-- Python `str.replace(old, new)` (all non-overlapping occurrences,
left to right), fuelled by the input length so the recursion is
structural; `old` is never empty at the call sites. -/
def replaceFuel (old new : List Char) : ℕ → List Char → List Char
  | 0, s => s
  | _ + 1, [] => []
  | fuel + 1, c :: rest =>
    if old ≠ [] ∧ old.isPrefixOf (c :: rest) then
      new ++ replaceFuel old new fuel ((c :: rest).drop old.length)
    else c :: replaceFuel old new fuel rest

/-- Python `s.replace(old, new)`. -/
def pyReplace (s old new : String) : String :=
  String.mk (replaceFuel old.data new.data s.data.length s.data)

/-- The digits of a decimal numeral, or `none` when empty or not all
digits. -/
def digitsVal (l : List Char) : Option ℕ :=
  if l ≠ [] ∧ l.all Char.isDigit then
    some (l.foldl (fun n c => 10 * n + (c.toNat - '0'.toNat)) 0)
  else none

/-- Python `int(s)`: strip whitespace, an optional sign, then a
nonempty digit string (leading zeros allowed — `int("03") = 3`);
`none` models the `ValueError` that the caller catches.  (Python also
tolerates underscores between digits, which no bundle filename uses.) -/
def pyParseInt (s : String) : Option ℤ :=
  match pyStrip s.data with
  | '-' :: ds => (digitsVal ds).map fun n => -(n : ℤ)
  | '+' :: ds => (digitsVal ds).map fun n => (n : ℤ)
  | ds => (digitsVal ds).map fun n => (n : ℤ)

/-- Python `s.startswith(pre)`. -/
def pyStartsWith (s pre : String) : Bool :=
  pre.data.isPrefixOf s.data

/-- Python `s.endswith(suf)`. -/
def pyEndsWith (s suf : String) : Bool :=
  suf.data.isSuffixOf s.data

/-- Stable insertion for `sorted` over integers. -/
def pyInsertInt (x : ℤ) : List ℤ → List ℤ
  | [] => [x]
  | h :: t => if h ≤ x then h :: pyInsertInt x t else x :: h :: t

/-- Python `sorted(l)` on integers. -/
def pySortInt (l : List ℤ) : List ℤ :=
  l.foldl (fun acc x => pyInsertInt x acc) []

/-- A dataset bundle: entry names mapped to their (pre-parsed) line
content.  A plain folder and a ZIP archive expose the same three
operations (list entries, read text, read JSON), so one structure
models both media. -/
structure Bundle where
  files : List (String × List Line)
deriving DecidableEq, Repr

/-- The error outcomes of the loaders: a missing entry
(`FileNotFoundError`) or an unavailable-rate report (`ValueError`
naming the invalid and the available rates). -/
inductive LoadErr where
  | fileNotFound (filename : String) : LoadErr
  | valueError (invalid : List ℤ) (available : List ℤ) : LoadErr
deriving DecidableEq, Repr

/-- `list_available_rates(source)`: for each entry name of the form
`snapshots_*.jsonl`, strip `snapshots_` and `x.jsonl` by `str.replace`
and parse the remainder as an int, skipping parse failures; return the
sorted rates. -/
def listAvailableRates (b : Bundle) : List ℤ :=
  pySortInt (b.files.filterMap fun f =>
    if pyStartsWith f.1 "snapshots_" && pyEndsWith f.1 ".jsonl" then
      pyParseInt (pyReplace (pyReplace f.1 "snapshots_" "") "x.jsonl" "")
    else none)

/-- The table `load_rate` builds for rate `r`: parse the canonical
entry's data lines and convert to a DataFrame. -/
def rateTable (b : Bundle) (r : ℤ) : DataFrame :=
  snapshotsToDataframe
    (((b.files.lookup ("snapshots_" ++ toString r ++ "x.jsonl")).getD []).filterMap
      parseJsonlLine)

/-- `load_rate(source, rate)`: `ValueError` when the rate is not among
the available rates, `FileNotFoundError` when the canonical entry
`snapshots_<rate>x.jsonl` is missing, else the parsed DataFrame. -/
def loadRate (b : Bundle) (rate : ℤ) : Except LoadErr DataFrame :=
  if rate ∈ listAvailableRates b then
    if ("snapshots_" ++ toString rate ++ "x.jsonl") ∈ b.files.map Prod.fst then
      .ok (rateTable b rate)
    else .error (.fileNotFound ("snapshots_" ++ toString rate ++ "x.jsonl"))
  else .error (.valueError [rate] (listAvailableRates b))

/-- `load_multirate_export(source, rates)`: with an explicit rate list,
validate the whole list against the available rates *before* loading
anything, failing with a `ValueError` naming every invalid rate; then
load each requested rate via `load_rate` into `result[f'{rate}x']`.
`rates = None` loads every available rate. -/
def loadMultirateExport (b : Bundle) (rates : Option (List ℤ)) :
    Except LoadErr (List (String × DataFrame)) :=
  match rates with
  | none =>
    (listAvailableRates b).foldlM
      (fun acc r => (loadRate b r).map fun df => dictInsert acc (toString r ++ "x") df) []
  | some rs =>
    if rs.filter (fun r => decide (r ∉ listAvailableRates b)) ≠ [] then
      .error (.valueError (rs.filter fun r => decide (r ∉ listAvailableRates b))
        (listAvailableRates b))
    else
      rs.foldlM
        (fun acc r => (loadRate b r).map fun df => dictInsert acc (toString r ++ "x") df) []

lemma lookup_map_overwrite {β : Type} (t : List (String × β)) (k : String) (v : β)
    (k' : String) (h : k' ≠ k) :
    (t.map fun p => if p.1 = k then (k, v) else p).lookup k' = t.lookup k' := by
  induction t with
  | nil => simp
  | cons p s ih =>
    obtain ⟨pk, pv⟩ := p
    simp only [List.map_cons]
    by_cases hp : pk = k
    · rw [if_pos (show ((pk, pv).1 = k) from hp), List.lookup_cons, List.lookup_cons,
        show (k' == k) = false from beq_false_of_ne h,
        show (k' == pk) = false from beq_false_of_ne (hp ▸ h)]
      exact ih
    · rw [if_neg (show ¬ ((pk, pv).1 = k) from hp), List.lookup_cons, List.lookup_cons]
      rcases eq_or_ne k' pk with he | he
      · rw [show (k' == pk) = true from by simpa using he]
      · rw [show (k' == pk) = false from beq_false_of_ne he]
        exact ih

lemma lookup_map_overwrite_self {β : Type} (t : List (String × β)) (k : String) (v : β)
    (hany : (t.any fun p => decide (p.1 = k)) = true) :
    (t.map fun p => if p.1 = k then (k, v) else p).lookup k = some v := by
  induction t with
  | nil => simp at hany
  | cons p s ih =>
    obtain ⟨pk, pv⟩ := p
    simp only [List.map_cons]
    by_cases hp : pk = k
    · rw [if_pos (show ((pk, pv).1 = k) from hp), List.lookup_cons,
        show (k == k) = true from by simp]
    · rw [if_neg (show ¬ ((pk, pv).1 = k) from hp), List.lookup_cons,
        show (k == pk) = false from beq_false_of_ne fun hh => hp hh.symm]
      refine ih ?_
      simp only [List.any_cons, Bool.or_eq_true, decide_eq_true_eq] at hany
      rcases hany with hh | hh
      · exact absurd hh hp
      · exact hh

lemma lookup_append_single {β : Type} (t : List (String × β)) (k : String) (v : β)
    (k' : String) (h : k' ≠ k) :
    (t ++ [(k, v)]).lookup k' = t.lookup k' := by
  induction t with
  | nil => simp [List.lookup_cons, beq_false_of_ne h]
  | cons p s ih =>
    obtain ⟨pk, pv⟩ := p
    simp only [List.cons_append, List.lookup_cons]
    rcases eq_or_ne k' pk with he | he
    · rw [show (k' == pk) = true from by simpa using he]
    · rw [show (k' == pk) = false from beq_false_of_ne he]
      exact ih

lemma lookup_append_single_self {β : Type} (t : List (String × β)) (k : String) (v : β)
    (hnone : ¬ (t.any fun p => decide (p.1 = k)) = true) :
    (t ++ [(k, v)]).lookup k = some v := by
  induction t with
  | nil => simp
  | cons p s ih =>
    obtain ⟨pk, pv⟩ := p
    have hp : ¬ pk = k := fun hh => hnone (by simp [List.any_cons, hh])
    simp only [List.cons_append, List.lookup_cons]
    rw [show (k == pk) = false from beq_false_of_ne fun hh => hp hh.symm]
    exact ih fun hh => hnone (by simp only [List.any_cons, hh, Bool.or_true])

lemma lookup_dictInsert_self {β : Type} (d : List (String × β)) (k : String) (v : β) :
    (dictInsert d k v).lookup k = some v := by
  unfold dictInsert
  by_cases hany : d.any fun p => decide (p.1 = k)
  · rw [if_pos hany]
    exact lookup_map_overwrite_self d k v hany
  · rw [if_neg hany]
    exact lookup_append_single_self d k v hany

lemma lookup_dictInsert_ne {β : Type} (d : List (String × β)) (k k' : String) (v : β)
    (h : k' ≠ k) : (dictInsert d k v).lookup k' = d.lookup k' := by
  unfold dictInsert
  by_cases hany : d.any fun p => decide (p.1 = k)
  · rw [if_pos hany]
    exact lookup_map_overwrite d k v k' h
  · rw [if_neg hany]
    exact lookup_append_single d k v k' h

lemma keys_dictInsert {β : Type} (d : List (String × β)) (k : String) (v : β) :
    (dictInsert d k v).map Prod.fst = d.map Prod.fst ∨
    (dictInsert d k v).map Prod.fst = d.map Prod.fst ++ [k] ∧ k ∉ d.map Prod.fst := by
  unfold dictInsert
  by_cases hany : d.any fun p => decide (p.1 = k)
  · left
    rw [if_pos hany, List.map_map]
    apply List.map_congr_left
    intro p _
    by_cases hp : p.1 = k
    · simp [hp]
    · simp [hp]
  · right
    rw [if_neg hany]
    refine ⟨by simp, ?_⟩
    intro hk
    obtain ⟨p, hp, hpk⟩ := List.mem_map.mp hk
    exact hany (List.any_eq_true.mpr ⟨p, hp, by simpa using hpk⟩)

lemma lookup_foldl_untouched {α β : Type} (f : α → String) (g : α → β) :
    ∀ (rs : List α) (acc : List (String × β)) (k : String), (∀ y ∈ rs, f y ≠ k) →
      ((rs.foldl (fun acc x => dictInsert acc (f x) (g x)) acc).lookup k) = acc.lookup k := by
  intro rs
  induction rs with
  | nil => intro acc k _; rfl
  | cons x t ih =>
    intro acc k hk
    rw [List.foldl_cons, ih _ k fun y hy => hk y (List.mem_cons_of_mem _ hy),
      lookup_dictInsert_ne _ _ _ _ (Ne.symm (hk x (List.mem_cons_self _ _)))]

lemma lookup_foldl_dictInsert {α β : Type} (f : α → String) (g : α → β)
    (hcompat : ∀ r r', f r = f r' → g r = g r') :
    ∀ (rs : List α) (acc : List (String × β)) (r : α), r ∈ rs →
      ((rs.foldl (fun acc x => dictInsert acc (f x) (g x)) acc).lookup (f r)) = some (g r) := by
  intro rs
  induction rs with
  | nil => intro acc r hr; simp at hr
  | cons x t ih =>
    intro acc r hr
    rw [List.foldl_cons]
    rcases List.mem_cons.mp hr with rfl | hrt
    · by_cases hyt : ∃ y ∈ t, f y = f r
      · obtain ⟨y, hy, hfy⟩ := hyt
        rw [← hfy, ih _ y hy, hcompat y r hfy]
      · push_neg at hyt
        rw [lookup_foldl_untouched f g t _ (f r) hyt]
        exact lookup_dictInsert_self _ _ _
    · exact ih _ r hrt

lemma keys_foldl_cover {α β : Type} (f : α → String) (g : α → β) :
    ∀ (rs : List α) (acc : List (String × β)) (k : String),
      k ∈ ((rs.foldl (fun acc x => dictInsert acc (f x) (g x)) acc).map Prod.fst) →
      k ∈ acc.map Prod.fst ∨ ∃ r ∈ rs, k = f r := by
  intro rs
  induction rs with
  | nil => intro acc k hk; exact Or.inl hk
  | cons x t ih =>
    intro acc k hk
    rw [List.foldl_cons] at hk
    rcases ih _ k hk with hacc | ⟨r, hr, rfl⟩
    · rcases keys_dictInsert acc (f x) (g x) with heq | ⟨heq, _⟩
      · rw [heq] at hacc
        exact Or.inl hacc
      · rw [heq] at hacc
        rcases List.mem_append.mp hacc with h1 | h2
        · exact Or.inl h1
        · exact Or.inr ⟨x, List.mem_cons_self _ _, by simpa using h2⟩
    · exact Or.inr ⟨r, List.mem_cons_of_mem _ hr, rfl⟩

lemma keys_foldl_nodup {α β : Type} (f : α → String) (g : α → β) :
    ∀ (rs : List α) (acc : List (String × β)), (acc.map Prod.fst).Nodup →
      ((rs.foldl (fun acc x => dictInsert acc (f x) (g x)) acc).map Prod.fst).Nodup := by
  intro rs
  induction rs with
  | nil => intro acc h; exact h
  | cons x t ih =>
    intro acc h
    rw [List.foldl_cons]
    refine ih _ ?_
    rcases keys_dictInsert acc (f x) (g x) with heq | ⟨heq, hnotin⟩
    · rw [heq]; exact h
    · rw [heq, List.nodup_append]
      refine ⟨h, List.nodup_singleton _, ?_⟩
      intro a ha hk
      simp only [List.mem_singleton] at hk
      exact hnotin (hk ▸ ha)

lemma foldlM_dictInsert_ok {β : Type} (load : ℤ → Except LoadErr β) (g : ℤ → β)
    (f : ℤ → String) :
    ∀ (rs : List ℤ) (acc : List (String × β)), (∀ r ∈ rs, load r = .ok (g r)) →
      rs.foldlM (fun acc r => (load r).map fun df => dictInsert acc (f r) df) acc
        = .ok (rs.foldl (fun acc r => dictInsert acc (f r) (g r)) acc) := by
  intro rs
  induction rs with
  | nil => intro acc _; rfl
  | cons x t ih =>
    intro acc h
    rw [List.foldlM_cons, h x (List.mem_cons_self _ _)]
    show (t.foldlM _ (dictInsert acc (f x) (g x))) = _
    rw [ih _ fun r hr => h r (List.mem_cons_of_mem _ hr), List.foldl_cons]

lemma rateTable_label_compat (b : Bundle) {r r' : ℤ}
    (h : toString r ++ "x" = toString r' ++ "x") : rateTable b r = rateTable b r' := by
  have hdata := congrArg String.data h
  rw [String.data_append, String.data_append] at hdata
  have hts : toString r = toString r' :=
    String.ext (List.append_cancel_right hdata)
  unfold rateTable
  rw [hts]

/-- C2 (amended): `load_multirate_export` with an explicit rate list is
all-or-nothing.  If any requested rate is unavailable it fails with a
`ValueError` naming exactly the unavailable rates (in request order) and
the available rates, before loading anything; if every requested rate is
available *and its canonical entry `snapshots_<rate>x.jsonl` is present*
(the normal export layout, from which availability is derived), it
returns a mapping with exactly one table per requested rate under the
`'<rate>x'` key.  (Without the canonical-entry proviso the success half
fails, see `loadMultirateExport_canonical_missing_counterexample`.) -/
theorem loadMultirateExport_spec (b : Bundle) (rates : List ℤ) :
    (rates.filter (fun r => decide (r ∉ listAvailableRates b)) ≠ [] →
      loadMultirateExport b (some rates) =
        .error (.valueError (rates.filter fun r => decide (r ∉ listAvailableRates b))
          (listAvailableRates b))) ∧
    (rates.filter (fun r => decide (r ∉ listAvailableRates b)) = [] →
      (∀ r ∈ rates, ("snapshots_" ++ toString r ++ "x.jsonl") ∈ b.files.map Prod.fst) →
      ∃ m, loadMultirateExport b (some rates) = .ok m ∧
        (∀ r ∈ rates, m.lookup (toString r ++ "x") = some (rateTable b r)) ∧
        (m.map Prod.fst).Nodup ∧
        (∀ k ∈ m.map Prod.fst, ∃ r ∈ rates, k = toString r ++ "x")) := by
  constructor
  · intro hinv
    rw [loadMultirateExport, if_pos hinv]
  · intro hinv hfiles
    have havail : ∀ r ∈ rates, r ∈ listAvailableRates b := by
      intro r hr
      by_contra habs
      have : r ∈ rates.filter fun r => decide (r ∉ listAvailableRates b) :=
        List.mem_filter.mpr ⟨hr, by simpa using habs⟩
      rw [hinv] at this
      exact absurd this (List.not_mem_nil r)
    have hok : ∀ r ∈ rates, loadRate b r = .ok (rateTable b r) := by
      intro r hr
      rw [loadRate, if_pos (havail r hr), if_pos (hfiles r hr)]
    refine ⟨rates.foldl (fun acc r => dictInsert acc (toString r ++ "x") (rateTable b r)) [],
      ?_, ?_, ?_, ?_⟩
    · rw [loadMultirateExport, if_neg (by simpa using hinv)]
      exact foldlM_dictInsert_ok (loadRate b) (rateTable b) (fun r => toString r ++ "x")
        rates [] hok
    · intro r hr
      exact lookup_foldl_dictInsert (fun x : ℤ => toString x ++ "x") (fun x => rateTable b x)
        (fun x y h => rateTable_label_compat b h) rates [] r hr
    · exact keys_foldl_nodup _ _ rates [] (by simp)
    · intro k hk
      rcases keys_foldl_cover _ _ rates [] k hk with h0 | h
      · simp at h0
      · exact h

/-- Witness for C2 at a concrete well-formed bundle with rates 1 and 3,
requesting `[3]`. -/
theorem loadMultirateExport_spec_witness :
    ∃ m, loadMultirateExport
        ⟨[("snapshots_1x.jsonl", [Line.data ⟨some 0, []⟩]),
          ("snapshots_3x.jsonl", [Line.data ⟨some 0, []⟩])]⟩ (some [3]) = .ok m ∧
      (∀ r ∈ [(3 : ℤ)], m.lookup (toString r ++ "x") =
        some (rateTable ⟨[("snapshots_1x.jsonl", [Line.data ⟨some 0, []⟩]),
          ("snapshots_3x.jsonl", [Line.data ⟨some 0, []⟩])]⟩ r)) ∧
      (m.map Prod.fst).Nodup ∧
      (∀ k ∈ m.map Prod.fst, ∃ r ∈ [(3 : ℤ)], k = toString r ++ "x") :=
  (loadMultirateExport_spec
      ⟨[("snapshots_1x.jsonl", [Line.data ⟨some 0, []⟩]),
        ("snapshots_3x.jsonl", [Line.data ⟨some 0, []⟩])]⟩ [3]).2
    (by decide) (by decide)

/-- Counterexample to C2 as stated: the bundle entry
`snapshots_03x.jsonl` makes rate 3 available (`int("03") = 3`), so the
request `[3]` passes validation, yet loading then fails looking for the
canonical name `snapshots_3x.jsonl` — a `FileNotFoundError` instead of
the claimed mapping, even though every requested rate was available. -/
theorem loadMultirateExport_canonical_missing_counterexample :
    (3 : ℤ) ∈ listAvailableRates ⟨[("snapshots_03x.jsonl", [Line.data ⟨some 1, []⟩])]⟩ ∧
    loadMultirateExport ⟨[("snapshots_03x.jsonl", [Line.data ⟨some 1, []⟩])]⟩ (some [3]) =
      .error (.fileNotFound "snapshots_3x.jsonl") :=
  ⟨by decide, by rfl⟩

end Boids
